import Mathlib

/-!
Verification of the unified-diff extraction and rendering core of the rpm
repository: a shallow embedding of `parseDiffForFile` and `parseDiffWithColors`
from `packages/web/src/lib/diffParser.ts` and of `parseDiffHunk` from
`packages/web/src/lib/utils.ts`, together with theorems settling the spec's
claims about them.

Strings are modelled as lists of characters (`Str`).  The JavaScript regular
expressions used by the source are embedded by their operational semantics on
the concrete patterns involved:

* `new RegExp("diff --git a/[^\\s]+ b/" + escapedPath + ".*?(?=diff --git|$)", "s")`
  matched against the full diff.  Because `escapedPath` escapes every regex
  metacharacter of `filePath`, the path participates as a literal.  The engine
  scans start positions left to right; at a position the literal
  `diff --git a/` must match, then `[^\s]+` greedily consumes the maximal run
  of non-whitespace characters (a shorter run is never viable, since the next
  literal character is a space, which is excluded from the run), then the
  literal ` b/` followed by the literal path must match, and finally the lazy
  `.*?` with dot-matches-newline extends to the first position where
  `diff --git` starts or to the end of input (the `$` alternative, which
  without the `m` flag matches only at the very end).

* `/rename from (.+)\nrename to (.+)/` finds the leftmost position where
  `rename from ` matches literally, then `(.+)` greedily takes the maximal run
  of non-line-terminator characters (shortening the run is never viable since
  the following atom is `\n`), then `\n`, the literal `rename to `, and a
  second maximal nonempty run.

* `/@@ -\d+(?:,\d+)? \+(\d+)(?:,(\d+))? @@/` similarly admits a deterministic
  reading: each `\d+` is a maximal nonempty digit run and each optional group
  participates exactly when a comma followed by a digit is present (when it
  participates but the following literal fails, dropping it cannot help, since
  the next required character would then be the comma itself).
-/

namespace Rpm

abbrev Str := List Char

def lit (s : String) : Str := s.data

/-- The character set matched by JavaScript regex `\s` (ECMAScript WhiteSpace,
LineTerminator and the Unicode space separators). -/
def jsWhitespace (c : Char) : Bool :=
  c == ' ' || c == '\t' || c == '\n' || c == '\r' || c == '\x0b' || c == '\x0c' ||
  c == ' ' || c == '﻿' || c == ' ' ||
  c == ' ' || c == ' ' || c == ' ' || c == ' ' ||
  c == ' ' || c == ' ' || c == ' ' || c == ' ' ||
  c == ' ' || c == ' ' || c == ' ' ||
  c == ' ' || c == ' ' || c == ' ' || c == ' ' || c == '　'

/-- The character set matched by JavaScript regex `.` without the `s` flag:
everything except a LineTerminator. -/
def jsDot (c : Char) : Bool :=
  !(c == '\n' || c == '\r' || c == ' ' || c == ' ')

/-- JavaScript `line.startsWith(pre)`. -/
def startsWith (pre : String) (line : Str) : Bool :=
  pre.data.isPrefixOf line

/-- JavaScript `hay.includes(needle)`: substring containment. -/
def includes (needle : Str) : Str → Bool
  | [] => needle.isEmpty
  | c :: rest => needle.isPrefixOf (c :: rest) || includes needle rest

/-- The lazy tail `.*?(?=diff --git|$)` of the file-section pattern (with the
`s` flag): consume characters up to, but excluding, the first occurrence of
`diff --git`, or up to the end of input. -/
def lazyUntilHeader : Str → Str
  | [] => []
  | c :: rest =>
    if (lit "diff --git").isPrefixOf (c :: rest) then []
    else c :: lazyUntilHeader rest

/-- One attempt of the file-section pattern
`diff --git a/[^\s]+ b/<filePath>.*?(?=diff --git|$)` at a fixed start
position; returns the matched substring (`match[0]`) on success. -/
def matchFileHeaderAt (filePath : Str) (s : Str) : Option Str :=
  if (lit "diff --git a/").isPrefixOf s then
    let afterHead := s.drop (lit "diff --git a/").length
    let run := afterHead.takeWhile (fun c => !jsWhitespace c)
    let rest := afterHead.drop run.length
    if run.isEmpty then none
    else if (lit " b/" ++ filePath).isPrefixOf rest then
      let afterPath := rest.drop ((lit " b/").length + filePath.length)
      some ((lit "diff --git a/") ++ run ++ (lit " b/") ++ filePath ++
            lazyUntilHeader afterPath)
    else none
  else none

/-- `fullDiff.match(filePattern)`: scan start positions left to right and
return the first successful match. -/
def firstMatch (filePath : Str) : Str → Option Str
  | [] => none
  | c :: rest =>
    match matchFileHeaderAt filePath (c :: rest) with
    | some m => some m
    | none => firstMatch filePath rest

/-- JavaScript `s.split('\n')`. -/
def splitOnNl : Str → List Str
  | [] => [[]]
  | c :: rest =>
    if c == '\n' then [] :: splitOnNl rest
    else
      match splitOnNl rest with
      | [] => [[c]]
      | l :: ls => (c :: l) :: ls

/-- JavaScript `lines.join('\n')`. -/
def joinNl : List Str → Str
  | [] => []
  | [l] => l
  | l :: l2 :: ls => l ++ '\n' :: joinNl (l2 :: ls)

/-- Metadata test of the `parseDiffForFile` loop. -/
def isForFileMetadata (line : Str) : Bool :=
  startsWith "diff " line || startsWith "index " line ||
  startsWith "--- " line || startsWith "+++ " line

structure ForFileState where
  inHunk : Bool
  originalLines : List Str
  modifiedLines : List Str
deriving DecidableEq

/-- One iteration of the `for (const line of lines)` loop of
`parseDiffForFile`. -/
def forFileStep (st : ForFileState) (line : Str) : ForFileState :=
  if startsWith "@@" line then { st with inHunk := true }
  else if !st.inHunk then st
  else if isForFileMetadata line then st
  else if startsWith "-" line then
    { st with originalLines := st.originalLines ++ [line.drop 1] }
  else if startsWith "+" line then
    { st with modifiedLines := st.modifiedLines ++ [line.drop 1] }
  else
    let stripped := if startsWith " " line then line.drop 1 else line
    { st with originalLines := st.originalLines ++ [stripped],
              modifiedLines := st.modifiedLines ++ [stripped] }

/-- `parseDiffForFile` from `diffParser.ts`. -/
def parseDiffForFile (fullDiff filePath : Str) : Option (Str × Str) :=
  if fullDiff.isEmpty || filePath.isEmpty then none
  else
    match firstMatch filePath fullDiff with
    | none => none
    | some fileDiff =>
      if includes (lit "Binary files") fileDiff then none
      else if includes (lit "deleted file mode") fileDiff then none
      else
        let st := (splitOnNl fileDiff).foldl forFileStep ⟨false, [], []⟩
        some (joinNl st.originalLines, joinNl st.modifiedLines)

structure DecoRange where
  startLineNumber : Nat
  endLineNumber : Nat
deriving DecidableEq

structure DecoOptions where
  isWholeLine : Bool
  className : Option String
  glyphMarginClassName : Option String
deriving DecidableEq

structure Decoration where
  range : DecoRange
  options : DecoOptions
deriving DecidableEq

def hunkHeaderDeco (n : Nat) : Decoration :=
  ⟨⟨n, n⟩, ⟨true, some "diff-hunk-header", none⟩⟩

def deletedDeco (n : Nat) : Decoration :=
  ⟨⟨n, n⟩, ⟨true, some "diff-line-deleted", some "diff-glyph-deleted"⟩⟩

def addedDeco (n : Nat) : Decoration :=
  ⟨⟨n, n⟩, ⟨true, some "diff-line-added", some "diff-glyph-added"⟩⟩

structure RenderedDiff where
  content : Str
  decorations : List Decoration
deriving DecidableEq

/-- One attempt of `/rename from (.+)\nrename to (.+)/` at a fixed start
position. -/
def renameMatchAt (s : Str) : Option (Str × Str) :=
  if (lit "rename from ").isPrefixOf s then
    let r := s.drop (lit "rename from ").length
    let c1 := r.takeWhile jsDot
    if c1.isEmpty then none
    else
      match r.drop c1.length with
      | '\n' :: r3 =>
        if (lit "rename to ").isPrefixOf r3 then
          let c2 := (r3.drop (lit "rename to ").length).takeWhile jsDot
          if c2.isEmpty then none else some (c1, c2)
        else none
      | _ => none
  else none

/-- `fileDiff.match(/rename from (.+)\nrename to (.+)/)`: leftmost match. -/
def renameSearch : Str → Option (Str × Str)
  | [] => none
  | c :: rest =>
    match renameMatchAt (c :: rest) with
    | some r => some r
    | none => renameSearch rest

/-- The banner line pushed for a renamed file.  The arrow between the two
paths reproduces the source string byte for byte (the source file carries a
mojibake rendering of the arrow). -/
def renameBanner (oldName newName : Str) : Str :=
  lit "// File renamed: " ++ oldName ++ lit " â†’ " ++ newName

/-- Metadata test of the `parseDiffWithColors` loop. -/
def isColorsMetadata (line : Str) : Bool :=
  startsWith "diff " line || startsWith "index " line ||
  startsWith "--- " line || startsWith "+++ " line ||
  startsWith "new file mode" line || startsWith "deleted file mode" line ||
  startsWith "rename from" line || startsWith "rename to" line

structure ColorsState where
  inHunk : Bool
  lineNumber : Nat
  contentLines : List Str
  decorations : List Decoration
deriving DecidableEq

/-- One iteration of the `for (const line of lines)` loop of
`parseDiffWithColors`. -/
def colorsStep (st : ColorsState) (line : Str) : ColorsState :=
  if isColorsMetadata line then st
  else if startsWith "@@" line then
    { inHunk := true, lineNumber := st.lineNumber + 1,
      contentLines := st.contentLines ++ [line],
      decorations := st.decorations ++ [hunkHeaderDeco (st.lineNumber + 1)] }
  else if !st.inHunk then st
  else if startsWith "-" line then
    { st with lineNumber := st.lineNumber + 1,
              contentLines := st.contentLines ++ [line.drop 1],
              decorations := st.decorations ++ [deletedDeco (st.lineNumber + 1)] }
  else if startsWith "+" line then
    { st with lineNumber := st.lineNumber + 1,
              contentLines := st.contentLines ++ [line.drop 1],
              decorations := st.decorations ++ [addedDeco (st.lineNumber + 1)] }
  else
    { st with lineNumber := st.lineNumber + 1,
              contentLines := st.contentLines ++
                [if startsWith " " line then line.drop 1 else line] }

/-- The lines pushed before the loop: the rename banner, or the new-file
banner, or nothing. -/
def bannerLines (fileDiff : Str) : List Str :=
  match renameSearch fileDiff with
  | some (oldName, newName) => [renameBanner oldName newName, []]
  | none =>
    if includes (lit "new file mode") fileDiff then [lit "// New file", []]
    else []

/-- `parseDiffWithColors` from `diffParser.ts`. -/
def parseDiffWithColors (fullDiff filePath : Str) : Option RenderedDiff :=
  if fullDiff.isEmpty || filePath.isEmpty then none
  else
    match firstMatch filePath fullDiff with
    | none => none
    | some fileDiff =>
      if includes (lit "Binary files") fileDiff then
        some ⟨lit "Binary file - no preview available", []⟩
      else if includes (lit "deleted file mode") fileDiff then
        some ⟨lit "File was deleted in this PR", []⟩
      else
        let banner := bannerLines fileDiff
        let st := (splitOnNl fileDiff).foldl colorsStep
          ⟨false, banner.length, banner, []⟩
        if st.contentLines.isEmpty then
          some ⟨lit "No changes to display", []⟩
        else
          some ⟨joinNl st.contentLines, st.decorations⟩

/-- `parseDiffHunk`: decimal value of a digit run (`parseInt(_, 10)`). -/
def decimalValue (ds : Str) : Nat :=
  ds.foldl (fun acc c => 10 * acc + (c.toNat - '0'.toNat)) 0

/-- The first optional group `(?:,\d+)?` of the hunk-header pattern: it
participates exactly when a comma followed by a digit is present (when it
participates the following literal must still match, and dropping it cannot
help, since the next required character would then be the comma itself). -/
def optCommaDigits : Str → Str
  | ',' :: t =>
    let d2 := t.takeWhile Char.isDigit
    if d2.isEmpty then ',' :: t else t.drop d2.length
  | r2 => r2

/-- The second optional group `(?:,(\d+))?` of the hunk-header pattern
together with the closing literal ` @@`; `v` is the captured new-start
value.  The count defaults to 1 when the group is absent. -/
def optCommaCapture (v : Nat) : Str → Option (Nat × Nat)
  | ',' :: t =>
    let m2 := t.takeWhile Char.isDigit
    if m2.isEmpty then none
    else if (lit " @@").isPrefixOf (t.drop m2.length) then
      some (v, decimalValue m2)
    else none
  | r5 => if (lit " @@").isPrefixOf r5 then some (v, 1) else none

/-- One attempt of `/@@ -\d+(?:,\d+)? \+(\d+)(?:,(\d+))? @@/` at a fixed
start position; returns (new start, new count) on success. -/
def hunkHeaderParseAt (s : Str) : Option (Nat × Nat) :=
  if (lit "@@ -").isPrefixOf s then
    let r1 := s.drop 4
    let d1 := r1.takeWhile Char.isDigit
    if d1.isEmpty then none
    else
      let r3 := optCommaDigits (r1.drop d1.length)
      if (lit " +").isPrefixOf r3 then
        let r4 := r3.drop 2
        let m1 := r4.takeWhile Char.isDigit
        if m1.isEmpty then none
        else optCommaCapture (decimalValue m1) (r4.drop m1.length)
      else none
  else none

/-- `diffHunk.match(hunkRegex)`: leftmost match of the hunk-header pattern. -/
def hunkSearch : Str → Option (Nat × Nat)
  | [] => none
  | c :: rest =>
    match hunkHeaderParseAt (c :: rest) with
    | some r => some r
    | none => hunkSearch rest

structure HunkRange where
  startLine : Nat
  lineCount : Nat
deriving DecidableEq

/-- `parseDiffHunk` from `utils.ts`. -/
def parseDiffHunk (diffHunk : Str) : Option HunkRange :=
  if diffHunk.isEmpty then none
  else
    match hunkSearch diffHunk with
    | none => none
    | some (s, c) => some ⟨s, c⟩

/-! Analysis definitions: a recursive presentation of the
`parseDiffWithColors` loop, used to state and prove its invariants.
`classifyColors` reproduces, in order, the branch conditions of the loop
body; the `bodyLines` / `bodyDecos` / `displayKinds` recursions mirror what
the loop appends for each classified source line. -/

inductive LineKind where
  | skipped
  | hunkHeader
  | deleted
  | added
  | context
deriving DecidableEq

/-- Which branch of the `parseDiffWithColors` loop body fires for `line` when
the current in-hunk flag is `b`. -/
def classifyColors (b : Bool) (line : Str) : LineKind :=
  if isColorsMetadata line then .skipped
  else if startsWith "@@" line then .hunkHeader
  else if !b then .skipped
  else if startsWith "-" line then .deleted
  else if startsWith "+" line then .added
  else .context

/-- The display lines the loop appends, starting from in-hunk flag `b`. -/
def bodyLines (b : Bool) : List Str → List Str
  | [] => []
  | line :: rest =>
    match classifyColors b line with
    | .skipped => bodyLines b rest
    | .hunkHeader => line :: bodyLines true rest
    | .deleted => line.drop 1 :: bodyLines b rest
    | .added => line.drop 1 :: bodyLines b rest
    | .context =>
      (if startsWith " " line then line.drop 1 else line) :: bodyLines b rest

/-- The decorations the loop appends, starting from in-hunk flag `b` and
line counter `n`. -/
def bodyDecos (b : Bool) (n : Nat) : List Str → List Decoration
  | [] => []
  | line :: rest =>
    match classifyColors b line with
    | .skipped => bodyDecos b n rest
    | .hunkHeader => hunkHeaderDeco (n + 1) :: bodyDecos true (n + 1) rest
    | .deleted => deletedDeco (n + 1) :: bodyDecos b (n + 1) rest
    | .added => addedDeco (n + 1) :: bodyDecos b (n + 1) rest
    | .context => bodyDecos b (n + 1) rest

/-- The classification of each *displayed* line, in display order (skipped
source lines contribute nothing). -/
def displayKinds (b : Bool) : List Str → List LineKind
  | [] => []
  | line :: rest =>
    match classifyColors b line with
    | .skipped => displayKinds b rest
    | .hunkHeader => .hunkHeader :: displayKinds true rest
    | .deleted => .deleted :: displayKinds b rest
    | .added => .added :: displayKinds b rest
    | .context => .context :: displayKinds b rest

/-- The in-hunk flag after the loop has consumed `lines`. -/
def hunkAfter (b : Bool) : List Str → Bool
  | [] => b
  | line :: rest =>
    match classifyColors b line with
    | .hunkHeader => hunkAfter true rest
    | _ => hunkAfter b rest

/-- The decorations a displayed line of a given kind receives, at display
line number `m`: exactly one for a hunk header, a deletion or an addition,
none otherwise. -/
def decosFor : LineKind → Nat → List Decoration
  | .hunkHeader, m => [hunkHeaderDeco m]
  | .deleted, m => [deletedDeco m]
  | .added, m => [addedDeco m]
  | _, _ => []

/-! Auxiliary lemmas about the string primitives. -/

lemma takeWhile_append_cons {p : Char → Bool} (l : Str) (c : Char) (cs : Str)
    (h1 : ∀ x ∈ l, p x = true) (h2 : p c = false) :
    (l ++ c :: cs).takeWhile p = l := by
  induction l with
  | nil => simp [List.takeWhile_cons, h2]
  | cons x xs ih =>
    simp only [List.cons_append, List.takeWhile_cons, h1 x (by simp)]
    simp [ih (fun y hy => h1 y (by simp [hy]))]

lemma splitOnNl_ne_nil : ∀ s : Str, splitOnNl s ≠ []
  | [] => by simp [splitOnNl]
  | c :: rest => by
    unfold splitOnNl
    split
    · simp
    · split <;> simp

lemma mem_splitOnNl_no_nl : ∀ (s : Str) (l : Str), l ∈ splitOnNl s → '\n' ∉ l
  | [], l, hl => by
    simp [splitOnNl] at hl
    simp [hl]
  | c :: rest, l, hl => by
    rw [splitOnNl] at hl
    by_cases hc : c == '\n'
    · rw [if_pos hc] at hl
      rcases List.mem_cons.mp hl with h | h
      · simp [h]
      · exact mem_splitOnNl_no_nl rest l h
    · rw [if_neg hc] at hl
      rcases hsp : splitOnNl rest with _ | ⟨r, rs⟩
      · exact absurd hsp (splitOnNl_ne_nil rest)
      · rw [hsp] at hl
        rcases List.mem_cons.mp hl with h | h
        · subst h
          intro hmem
          rcases List.mem_cons.mp hmem with h' | h'
          · exact hc (by simp [h'.symm])
          · exact mem_splitOnNl_no_nl rest r (by rw [hsp]; exact List.mem_cons_self r rs) h'
        · exact mem_splitOnNl_no_nl rest l (by rw [hsp]; exact List.mem_cons_of_mem r h)

lemma splitOnNl_no_nl_eq : ∀ l : Str, '\n' ∉ l → splitOnNl l = [l]
  | [], _ => by simp [splitOnNl]
  | c :: rest, h => by
    have hc : (c == '\n') = false := by
      simp only [List.mem_cons, not_or] at h
      simp [Ne.symm h.1]
    rw [splitOnNl, if_neg (by simp [hc]),
        splitOnNl_no_nl_eq rest (by simp only [List.mem_cons, not_or] at h; exact h.2)]

lemma splitOnNl_append : ∀ (l s : Str), '\n' ∉ l →
    splitOnNl (l ++ '\n' :: s) = l :: splitOnNl s
  | [], s, _ => by simp [splitOnNl]
  | c :: rest, s, h => by
    have hc : (c == '\n') = false := by
      simp only [List.mem_cons, not_or] at h
      simp [Ne.symm h.1]
    rw [List.cons_append, splitOnNl, if_neg (by simp [hc]),
        splitOnNl_append rest s (by simp only [List.mem_cons, not_or] at h; exact h.2)]

lemma splitOnNl_joinNl : ∀ ls : List Str, (∀ l ∈ ls, '\n' ∉ l) → ls ≠ [] →
    splitOnNl (joinNl ls) = ls
  | [], _, hne => absurd rfl hne
  | [l], h, _ => by
    rw [joinNl, splitOnNl_no_nl_eq l (h l (by simp))]
  | l :: l2 :: rest, h, _ => by
    rw [joinNl, splitOnNl_append _ _ (h l (by simp)),
        splitOnNl_joinNl (l2 :: rest) (fun x hx => h x (by simp [List.mem_cons] at hx ⊢; tauto)) (by simp)]

lemma joinNl_ne_nil (l : Str) (ls : List Str) (h : l ≠ []) : joinNl (l :: ls) ≠ [] := by
  cases ls with
  | nil => simpa [joinNl] using h
  | cons l2 rest => simp [joinNl]

/-! Characterization of the `parseDiffWithColors` loop. -/

lemma colorsStep_eq (st : ColorsState) (line : Str) :
    colorsStep st line =
      match classifyColors st.inHunk line with
      | .skipped => st
      | .hunkHeader =>
        { st with inHunk := true, lineNumber := st.lineNumber + 1,
                  contentLines := st.contentLines ++ [line],
                  decorations := st.decorations ++ [hunkHeaderDeco (st.lineNumber + 1)] }
      | .deleted =>
        { st with lineNumber := st.lineNumber + 1,
                  contentLines := st.contentLines ++ [line.drop 1],
                  decorations := st.decorations ++ [deletedDeco (st.lineNumber + 1)] }
      | .added =>
        { st with lineNumber := st.lineNumber + 1,
                  contentLines := st.contentLines ++ [line.drop 1],
                  decorations := st.decorations ++ [addedDeco (st.lineNumber + 1)] }
      | .context =>
        { st with lineNumber := st.lineNumber + 1,
                  contentLines := st.contentLines ++
                    [if startsWith " " line then line.drop 1 else line] } := by
  unfold colorsStep classifyColors
  split_ifs <;> rfl

lemma foldl_colorsStep : ∀ (lines : List Str) (b : Bool) (n : Nat)
    (cls : List Str) (ds : List Decoration),
    lines.foldl colorsStep ⟨b, n, cls, ds⟩ =
      ⟨hunkAfter b lines, n + (bodyLines b lines).length,
       cls ++ bodyLines b lines, ds ++ bodyDecos b n lines⟩
  | [], b, n, cls, ds => by simp [bodyLines, bodyDecos, hunkAfter]
  | line :: rest, b, n, cls, ds => by
    rw [List.foldl_cons, colorsStep_eq]
    rcases hk : classifyColors b line
    all_goals
      simp only [hk, bodyLines, bodyDecos, hunkAfter,
        foldl_colorsStep rest, foldl_colorsStep rest true (n + 1),
        foldl_colorsStep rest b (n + 1)]
    all_goals
      refine ColorsState.mk.injEq .. ▸ ⟨rfl, by simp; omega, by simp, by simp⟩

lemma bodyDecos_start_gt : ∀ (lines : List Str) (b : Bool) (n : Nat)
    (d : Decoration), d ∈ bodyDecos b n lines → n < d.range.startLineNumber
  | [], _, _, _, hd => by simp [bodyDecos] at hd
  | line :: rest, b, n, d, hd => by
    rw [bodyDecos] at hd
    rcases hk : classifyColors b line <;> rw [hk] at hd
    case skipped => exact bodyDecos_start_gt rest b n d hd
    case hunkHeader =>
      rcases List.mem_cons.mp hd with h | h
      · simp [h, hunkHeaderDeco]
      · exact Nat.lt_of_succ_lt (bodyDecos_start_gt rest true (n + 1) d h)
    case deleted =>
      rcases List.mem_cons.mp hd with h | h
      · simp [h, deletedDeco]
      · exact Nat.lt_of_succ_lt (bodyDecos_start_gt rest b (n + 1) d h)
    case added =>
      rcases List.mem_cons.mp hd with h | h
      · simp [h, addedDeco]
      · exact Nat.lt_of_succ_lt (bodyDecos_start_gt rest b (n + 1) d h)
    case context =>
      exact Nat.lt_of_succ_lt (bodyDecos_start_gt rest b (n + 1) d hd)

lemma bodyDecos_one_line : ∀ (lines : List Str) (b : Bool) (n : Nat)
    (d : Decoration), d ∈ bodyDecos b n lines →
    d.range.startLineNumber = d.range.endLineNumber ∧ d.options.isWholeLine = true
  | [], _, _, _, hd => by simp [bodyDecos] at hd
  | line :: rest, b, n, d, hd => by
    rw [bodyDecos] at hd
    rcases hk : classifyColors b line <;> rw [hk] at hd
    case skipped => exact bodyDecos_one_line rest b n d hd
    case hunkHeader =>
      rcases List.mem_cons.mp hd with h | h
      · simp [h, hunkHeaderDeco]
      · exact bodyDecos_one_line rest true (n + 1) d h
    case deleted =>
      rcases List.mem_cons.mp hd with h | h
      · simp [h, deletedDeco]
      · exact bodyDecos_one_line rest b (n + 1) d h
    case added =>
      rcases List.mem_cons.mp hd with h | h
      · simp [h, addedDeco]
      · exact bodyDecos_one_line rest b (n + 1) d h
    case context => exact bodyDecos_one_line rest b (n + 1) d hd

lemma bodyDecos_disjoint : ∀ (lines : List Str) (b : Bool) (n : Nat),
    (bodyDecos b n lines).Pairwise
      (fun d1 d2 => d1.range.endLineNumber < d2.range.startLineNumber)
  | [], _, _ => by simp [bodyDecos]
  | line :: rest, b, n => by
    rw [bodyDecos]
    rcases hk : classifyColors b line
    case skipped => exact bodyDecos_disjoint rest b n
    case hunkHeader =>
      refine List.Pairwise.cons ?_ (bodyDecos_disjoint rest true (n + 1))
      intro d hd
      exact bodyDecos_start_gt rest true (n + 1) d hd
    case deleted =>
      refine List.Pairwise.cons ?_ (bodyDecos_disjoint rest b (n + 1))
      intro d hd
      exact bodyDecos_start_gt rest b (n + 1) d hd
    case added =>
      refine List.Pairwise.cons ?_ (bodyDecos_disjoint rest b (n + 1))
      intro d hd
      exact bodyDecos_start_gt rest b (n + 1) d hd
    case context => exact bodyDecos_disjoint rest b (n + 1)

lemma bodyLines_length : ∀ (lines : List Str) (b : Bool),
    (bodyLines b lines).length = (displayKinds b lines).length
  | [], _ => rfl
  | line :: rest, b => by
    rw [bodyLines, displayKinds]
    rcases hk : classifyColors b line <;>
      simp [bodyLines_length rest]

lemma bodyDecos_count_hunk : ∀ (lines : List Str) (b : Bool) (n : Nat),
    (bodyDecos b n lines).countP
        (fun d => d.options.className == some "diff-hunk-header") =
      (displayKinds b lines).countP (fun k => k == LineKind.hunkHeader)
  | [], _, _ => rfl
  | line :: rest, b, n => by
    rw [bodyDecos, displayKinds]
    rcases hk : classifyColors b line <;>
      simp [List.countP_cons, bodyDecos_count_hunk rest,
        hunkHeaderDeco, deletedDeco, addedDeco]

lemma bodyDecos_count_deleted : ∀ (lines : List Str) (b : Bool) (n : Nat),
    (bodyDecos b n lines).countP
        (fun d => d.options.className == some "diff-line-deleted") =
      (displayKinds b lines).countP (fun k => k == LineKind.deleted)
  | [], _, _ => rfl
  | line :: rest, b, n => by
    rw [bodyDecos, displayKinds]
    rcases hk : classifyColors b line <;>
      simp [List.countP_cons, bodyDecos_count_deleted rest,
        hunkHeaderDeco, deletedDeco, addedDeco]

lemma bodyDecos_count_added : ∀ (lines : List Str) (b : Bool) (n : Nat),
    (bodyDecos b n lines).countP
        (fun d => d.options.className == some "diff-line-added") =
      (displayKinds b lines).countP (fun k => k == LineKind.added)
  | [], _, _ => rfl
  | line :: rest, b, n => by
    rw [bodyDecos, displayKinds]
    rcases hk : classifyColors b line <;>
      simp [List.countP_cons, bodyDecos_count_added rest,
        hunkHeaderDeco, deletedDeco, addedDeco]

lemma bodyDecos_filter_ge (lines : List Str) (b : Bool) (n m : Nat) (hm : m ≤ n) :
    (bodyDecos b n lines).filter (fun d => d.range.startLineNumber == m) = [] := by
  rw [List.filter_eq_nil_iff]
  intro d hd
  have := bodyDecos_start_gt lines b n d hd
  simp only [beq_iff_eq]
  omega

lemma bodyDecos_filter_at : ∀ (lines : List Str) (b : Bool) (n i : Nat),
    i < (displayKinds b lines).length →
    (bodyDecos b n lines).filter (fun d => d.range.startLineNumber == n + i + 1) =
      decosFor ((displayKinds b lines).getD i .skipped) (n + i + 1)
  | [], _, _, i => by simp [displayKinds]
  | line :: rest, b, n, i => by
    intro h
    rw [displayKinds] at h
    rw [bodyDecos, displayKinds]
    rcases hk : classifyColors b line <;> rw [hk] at h <;> dsimp only at h ⊢
    case skipped => exact bodyDecos_filter_at rest b n i h
    case hunkHeader =>
      rcases i with _ | j
      · rw [List.filter_cons, bodyDecos_filter_ge rest true (n + 1) (n + 0 + 1) (by omega)]
        simp [decosFor, hunkHeaderDeco]
      · rw [List.filter_cons]
        simp only [hunkHeaderDeco, beq_iff_eq]
        rw [if_neg (by omega)]
        have := bodyDecos_filter_at rest true (n + 1) j (by simpa using h)
        rw [show n + 1 + j + 1 = n + (j + 1) + 1 by omega] at this
        rw [this, List.getD_cons_succ]
    case deleted =>
      rcases i with _ | j
      · rw [List.filter_cons, bodyDecos_filter_ge rest b (n + 1) (n + 0 + 1) (by omega)]
        simp [decosFor, deletedDeco]
      · rw [List.filter_cons]
        simp only [deletedDeco, beq_iff_eq]
        rw [if_neg (by omega)]
        have := bodyDecos_filter_at rest b (n + 1) j (by simpa using h)
        rw [show n + 1 + j + 1 = n + (j + 1) + 1 by omega] at this
        rw [this, List.getD_cons_succ]
    case added =>
      rcases i with _ | j
      · rw [List.filter_cons, bodyDecos_filter_ge rest b (n + 1) (n + 0 + 1) (by omega)]
        simp [decosFor, addedDeco]
      · rw [List.filter_cons]
        simp only [addedDeco, beq_iff_eq]
        rw [if_neg (by omega)]
        have := bodyDecos_filter_at rest b (n + 1) j (by simpa using h)
        rw [show n + 1 + j + 1 = n + (j + 1) + 1 by omega] at this
        rw [this, List.getD_cons_succ]
    case context =>
      rcases i with _ | j
      · rw [bodyDecos_filter_ge rest b (n + 1) (n + 0 + 1) (by omega)]
        simp [decosFor]
      · have := bodyDecos_filter_at rest b (n + 1) j (by simpa using h)
        rw [show n + 1 + j + 1 = n + (j + 1) + 1 by omega] at this
        rw [this, List.getD_cons_succ]

lemma classifyColors_false (line : Str) :
    classifyColors false line = .skipped ∨ classifyColors false line = .hunkHeader := by
  unfold classifyColors
  split_ifs <;> simp_all

lemma classifyColors_hunkHeader (b : Bool) (line : Str)
    (h : classifyColors b line = .hunkHeader) : startsWith "@@" line = true := by
  unfold classifyColors at h
  split_ifs at h <;> simp_all

lemma bodyLines_head : ∀ lines : List Str,
    bodyLines false lines = [] ∨
      ∃ l t, bodyLines false lines = l :: t ∧ startsWith "@@" l = true
  | [] => Or.inl rfl
  | line :: rest => by
    rw [bodyLines]
    rcases hf : classifyColors false line with _ | _ | _ | _ | _
    · exact bodyLines_head rest
    · exact Or.inr ⟨line, bodyLines true rest, rfl,
        classifyColors_hunkHeader false line hf⟩
    all_goals
      rcases classifyColors_false line with h | h <;> rw [hf] at h <;> cases h

lemma mem_bodyLines_no_nl : ∀ (lines : List Str) (b : Bool) (l : Str),
    (∀ x ∈ lines, '\n' ∉ x) → l ∈ bodyLines b lines → '\n' ∉ l
  | [], _, _, _, hl => by simp [bodyLines] at hl
  | line :: rest, b, l, hx, hl => by
    have hline : '\n' ∉ line := hx line (by simp)
    have hrest : ∀ x ∈ rest, '\n' ∉ x := fun x hm => hx x (by simp [hm])
    have hdropped : '\n' ∉ line.drop 1 := fun hm => hline (List.mem_of_mem_drop hm)
    rw [bodyLines] at hl
    rcases hk : classifyColors b line <;> rw [hk] at hl
    case skipped => exact mem_bodyLines_no_nl rest b l hrest hl
    case hunkHeader =>
      rcases List.mem_cons.mp hl with h | h
      · exact h ▸ hline
      · exact mem_bodyLines_no_nl rest true l hrest h
    case deleted =>
      rcases List.mem_cons.mp hl with h | h
      · exact h ▸ hdropped
      · exact mem_bodyLines_no_nl rest b l hrest h
    case added =>
      rcases List.mem_cons.mp hl with h | h
      · exact h ▸ hdropped
      · exact mem_bodyLines_no_nl rest b l hrest h
    case context =>
      rcases List.mem_cons.mp hl with h | h
      · subst h
        split <;> assumption
      · exact mem_bodyLines_no_nl rest b l hrest h

lemma startsWith_atat_ne_nil (l : Str) (h : startsWith "@@" l = true) : l ≠ [] := by
  intro he
  subst he
  simp [startsWith, lit] at h

/-! Lemmas about the rename-banner machinery. -/

lemma no_nl_takeWhile_jsDot (l : Str) : '\n' ∉ l.takeWhile jsDot := by
  intro hmem
  have := List.mem_takeWhile_imp hmem
  simp [jsDot] at this

lemma renameMatchAt_no_nl (s o nw : Str) (h : renameMatchAt s = some (o, nw)) :
    '\n' ∉ o ∧ '\n' ∉ nw := by
  unfold renameMatchAt at h
  by_cases h1 : (lit "rename from ").isPrefixOf s = true
  case neg =>
    rw [if_neg h1] at h
    cases h
  rw [if_pos h1] at h
  dsimp only at h
  by_cases h2 : ((s.drop (lit "rename from ").length).takeWhile jsDot).isEmpty = true
  · rw [if_pos h2] at h
    cases h
  · rw [if_neg h2] at h
    split at h
    · split_ifs at h <;> cases h
      all_goals exact ⟨no_nl_takeWhile_jsDot _, no_nl_takeWhile_jsDot _⟩
    · cases h

lemma renameSearch_no_nl : ∀ (s o nw : Str), renameSearch s = some (o, nw) →
    '\n' ∉ o ∧ '\n' ∉ nw
  | [], _, _, h => by cases h
  | c :: rest, o, nw, h => by
    rw [renameSearch] at h
    rcases hra : renameMatchAt (c :: rest) with _ | ⟨o', nw'⟩ <;> rw [hra] at h
    · exact renameSearch_no_nl rest o nw h
    · cases h
      exact renameMatchAt_no_nl (c :: rest) _ _ hra

lemma renameBanner_ne_nil (o nw : Str) : renameBanner o nw ≠ [] := by
  unfold renameBanner
  intro hcontra
  have := congrArg List.length hcontra
  simp [lit] at this

lemma renameBanner_no_nl (o nw : Str) (ho : '\n' ∉ o) (hnw : '\n' ∉ nw) :
    '\n' ∉ renameBanner o nw := by
  unfold renameBanner
  intro hmem
  rcases List.mem_append.mp hmem with hmem' | hmem'
  · rcases List.mem_append.mp hmem' with hmem'' | hmem''
    · rcases List.mem_append.mp hmem'' with hmem3 | hmem3
      · revert hmem3
        decide
      · exact ho hmem3
    · revert hmem''
      decide
  · exact hnw hmem'

lemma bannerLines_cases (frag : Str) :
    bannerLines frag = [] ∨ ∃ hd, bannerLines frag = [hd, []] ∧ hd ≠ [] := by
  unfold bannerLines
  rcases hr : renameSearch frag with _ | ⟨o, nw⟩
  · split_ifs with hn
    · exact Or.inr ⟨lit "// New file", rfl, by decide⟩
    · exact Or.inl rfl
  · exact Or.inr ⟨renameBanner o nw, rfl, renameBanner_ne_nil o nw⟩

lemma bannerLines_no_nl (frag l : Str) (hl : l ∈ bannerLines frag) : '\n' ∉ l := by
  unfold bannerLines at hl
  rcases hr : renameSearch frag with _ | ⟨o, nw⟩ <;> rw [hr] at hl
  · split_ifs at hl with hn
    · rcases List.mem_cons.mp hl with h | h
      · subst h
        decide
      · simp at h
        simp [h]
    · simp at hl
  · rcases List.mem_cons.mp hl with h | h
    · subst h
      have := renameSearch_no_nl frag o nw hr
      exact renameBanner_no_nl o nw this.1 this.2
    · simp at h
      simp [h]

/-! Unfolding lemmas for the extraction and render pipelines. -/

lemma parseDiffForFile_none (d p : Str)
    (h : d = [] ∨ p = [] ∨ firstMatch p d = none) : parseDiffForFile d p = none := by
  unfold parseDiffForFile
  by_cases hg : (d.isEmpty || p.isEmpty) = true
  · rw [if_pos hg]
  · rw [if_neg hg]
    rcases hfm : firstMatch p d with _ | frag
    · rfl
    · exfalso
      simp only [List.isEmpty_eq_true, Bool.or_eq_true] at hg
      rcases h with h | h | h
      · exact hg (Or.inl h)
      · exact hg (Or.inr h)
      · rw [h] at hfm
        cases hfm

lemma parseDiffWithColors_none_iff (d p : Str) :
    parseDiffWithColors d p = none ↔ d = [] ∨ p = [] ∨ firstMatch p d = none := by
  unfold parseDiffWithColors
  by_cases hg : (d.isEmpty || p.isEmpty) = true
  · rw [if_pos hg]
    simp only [List.isEmpty_eq_true, Bool.or_eq_true] at hg
    simp [hg.imp id Or.inl]
  · rw [if_neg hg]
    simp only [List.isEmpty_eq_true, Bool.or_eq_true] at hg
    push_neg at hg
    rcases hfm : firstMatch p d with _ | frag
    · simp
    · dsimp only
      constructor
      · intro h
        split_ifs at h <;> simp at h
      · intro h
        rcases h with h | h | h
        · exact absurd h hg.1
        · exact absurd h hg.2
        · cases h

lemma parseDiffWithColors_eq_of_match (d p frag : Str) (hd : d ≠ []) (hp : p ≠ [])
    (hm : firstMatch p d = some frag) :
    parseDiffWithColors d p =
      if includes (lit "Binary files") frag then
        some ⟨lit "Binary file - no preview available", []⟩
      else if includes (lit "deleted file mode") frag then
        some ⟨lit "File was deleted in this PR", []⟩
      else if (bannerLines frag ++ bodyLines false (splitOnNl frag)).isEmpty then
        some ⟨lit "No changes to display", []⟩
      else
        some ⟨joinNl (bannerLines frag ++ bodyLines false (splitOnNl frag)),
              bodyDecos false (bannerLines frag).length (splitOnNl frag)⟩ := by
  unfold parseDiffWithColors
  rw [if_neg (by simp [hd, hp]), hm]
  dsimp only
  rw [foldl_colorsStep]
  dsimp only
  rw [List.nil_append]

lemma parseDiffWithColors_main (d p frag : Str) (hd : d ≠ []) (hp : p ≠ [])
    (hm : firstMatch p d = some frag)
    (hbin : includes (lit "Binary files") frag = false)
    (hdel : includes (lit "deleted file mode") frag = false)
    (hne : bannerLines frag ++ bodyLines false (splitOnNl frag) ≠ []) :
    parseDiffWithColors d p =
      some ⟨joinNl (bannerLines frag ++ bodyLines false (splitOnNl frag)),
            bodyDecos false (bannerLines frag).length (splitOnNl frag)⟩ := by
  rw [parseDiffWithColors_eq_of_match d p frag hd hp hm,
      if_neg (by simp [hbin]), if_neg (by simp [hdel]),
      if_neg (by simp only [List.isEmpty_eq_true]; exact hne)]

lemma parseDiffWithColors_noChanges (d p frag : Str) (hd : d ≠ []) (hp : p ≠ [])
    (hm : firstMatch p d = some frag)
    (hbin : includes (lit "Binary files") frag = false)
    (hdel : includes (lit "deleted file mode") frag = false)
    (hbe : bannerLines frag = []) (hble : bodyLines false (splitOnNl frag) = []) :
    parseDiffWithColors d p = some ⟨lit "No changes to display", []⟩ := by
  rw [parseDiffWithColors_eq_of_match d p frag hd hp hm,
      if_neg (by simp [hbin]), if_neg (by simp [hdel]),
      if_pos (by simp [hbe, hble])]

lemma parseDiffWithColors_content_ne_nil (d p : Str) (r : RenderedDiff)
    (h : parseDiffWithColors d p = some r) : r.content ≠ [] := by
  by_cases hd : d = []
  · rw [(parseDiffWithColors_none_iff d p).mpr (Or.inl hd)] at h
    cases h
  by_cases hp : p = []
  · rw [(parseDiffWithColors_none_iff d p).mpr (Or.inr (Or.inl hp))] at h
    cases h
  rcases hfm : firstMatch p d with _ | frag
  · rw [(parseDiffWithColors_none_iff d p).mpr (Or.inr (Or.inr hfm))] at h
    cases h
  rw [parseDiffWithColors_eq_of_match d p frag hd hp hfm] at h
  split_ifs at h with h1 h2 h3
  · cases h
    decide
  · cases h
    decide
  · cases h
    decide
  · cases h
    simp only [List.isEmpty_eq_true] at h3
    rcases bannerLines_cases frag with hb | ⟨hd0, hbe, hdne⟩
    · rw [hb, List.nil_append] at h3 ⊢
      rcases bodyLines_head (splitOnNl frag) with hbl | ⟨l, t, hbl, hsw⟩
      · exact absurd hbl h3
      · rw [hbl]
        exact joinNl_ne_nil l t (startsWith_atat_ne_nil l hsw)
    · rw [hbe]
      exact joinNl_ne_nil hd0 _ hdne

/-! Construction lemmas: successful matches of the file-section pattern and
the hunk-header pattern on inputs of the right shape. -/

lemma matchFileHeaderAt_construct (p run rest0 : Str) (hrun : run ≠ [])
    (hws : ∀ c ∈ run, jsWhitespace c = false) :
    matchFileHeaderAt p
      (lit "diff --git a/" ++ (run ++ (' ' :: ('b' :: ('/' :: (p ++ rest0)))))) ≠
      none := by
  unfold matchFileHeaderAt
  rw [if_pos (by rw [List.isPrefixOf_iff_prefix]; exact List.prefix_append _ _)]
  dsimp only
  rw [List.drop_left,
      takeWhile_append_cons run ' ' _ (by intro x hx; simp [hws x hx]) (by decide),
      if_neg (by simp [hrun]),
      List.drop_left,
      if_pos (by rw [List.isPrefixOf_iff_prefix]; exact ⟨rest0, rfl⟩)]
  simp

lemma firstMatch_ne_none_of_suffix : ∀ (pre suf p : Str),
    matchFileHeaderAt p suf ≠ none → firstMatch p (pre ++ suf) ≠ none
  | [], suf, p, h => by
    rcases suf with _ | ⟨c, rest⟩
    · exact absurd rfl h
    · rw [List.nil_append, firstMatch]
      rcases hma : matchFileHeaderAt p (c :: rest) with _ | m
      · exact absurd hma h
      · simp
  | c :: pre, suf, p, h => by
    rw [List.cons_append, firstMatch]
    rcases hma : matchFileHeaderAt p (c :: (pre ++ suf)) with _ | m
    · exact firstMatch_ne_none_of_suffix pre suf p h
    · simp

lemma optCommaDigits_eats (ds : Str) (c : Char) (cs : Str) (hne : ds ≠ [])
    (hd : ∀ x ∈ ds, x.isDigit = true) (hc : c.isDigit = false) :
    optCommaDigits (',' :: (ds ++ c :: cs)) = c :: cs := by
  simp only [optCommaDigits]
  rw [takeWhile_append_cons ds c cs hd hc, if_neg (by simp [hne]), List.drop_left]

lemma optCommaDigits_space (X : Str) : optCommaDigits (' ' :: X) = ' ' :: X := rfl

lemma optCommaCapture_digits (v : Nat) (ds ctx : Str) (hne : ds ≠ [])
    (hd : ∀ x ∈ ds, x.isDigit = true) :
    optCommaCapture v (',' :: (ds ++ (' ' :: ('@' :: ('@' :: ctx))))) =
      some (v, decimalValue ds) := by
  simp only [optCommaCapture]
  rw [takeWhile_append_cons ds ' ' _ hd (by decide), if_neg (by simp [hne]),
      List.drop_left, if_pos (by rw [List.isPrefixOf_iff_prefix]; exact ⟨_, rfl⟩)]

lemma optCommaCapture_space (v : Nat) (ctx : Str) :
    optCommaCapture v (' ' :: ('@' :: ('@' :: ctx))) = some (v, 1) := by
  show (if (lit " @@").isPrefixOf (' ' :: ('@' :: ('@' :: ctx))) = true then
      some (v, 1) else none) = some (v, 1)
  rw [if_pos (by rw [List.isPrefixOf_iff_prefix]; exact ⟨_, rfl⟩)]

lemma hunkHeaderParseAt_full (ds1 ds2 ds3 ds4 ctx : Str)
    (h1 : ds1 ≠ []) (h2 : ds2 ≠ []) (h3 : ds3 ≠ []) (h4 : ds4 ≠ [])
    (hd1 : ∀ c ∈ ds1, c.isDigit = true) (hd2 : ∀ c ∈ ds2, c.isDigit = true)
    (hd3 : ∀ c ∈ ds3, c.isDigit = true) (hd4 : ∀ c ∈ ds4, c.isDigit = true) :
    hunkHeaderParseAt
        (lit "@@ -" ++ (ds1 ++ (',' :: (ds2 ++
          (' ' :: ('+' :: (ds3 ++ (',' :: (ds4 ++ (' ' :: ('@' :: ('@' :: ctx)))))))))))) =
      some (decimalValue ds3, decimalValue ds4) := by
  unfold hunkHeaderParseAt
  rw [if_pos (by rw [List.isPrefixOf_iff_prefix]; exact List.prefix_append _ _)]
  dsimp only
  rw [show (lit "@@ -" ++ (ds1 ++ (',' :: (ds2 ++
        (' ' :: ('+' :: (ds3 ++ (',' :: (ds4 ++ (' ' :: ('@' :: ('@' :: ctx)))))))))))).drop 4 =
      ds1 ++ (',' :: (ds2 ++ (' ' :: ('+' :: (ds3 ++ (',' :: (ds4 ++
        (' ' :: ('@' :: ('@' :: ctx))))))))))
    from List.drop_left (lit "@@ -") _,
    takeWhile_append_cons ds1 ',' _ hd1 (by decide),
    if_neg (by simp [h1]),
    List.drop_left,
    optCommaDigits_eats ds2 ' ' _ h2 hd2 (by decide),
    if_pos (by rw [List.isPrefixOf_iff_prefix]; exact ⟨_, rfl⟩),
    show (' ' :: ('+' :: (ds3 ++ (',' :: (ds4 ++ (' ' :: ('@' :: ('@' :: ctx)))))))).drop 2 =
        ds3 ++ (',' :: (ds4 ++ (' ' :: ('@' :: ('@' :: ctx))))) from rfl,
    takeWhile_append_cons ds3 ',' _ hd3 (by decide),
    if_neg (by simp [h3]),
    List.drop_left,
    optCommaCapture_digits _ ds4 ctx h4 hd4]

lemma hunkHeaderParseAt_defaults (ds1 ds3 ctx : Str)
    (h1 : ds1 ≠ []) (h3 : ds3 ≠ [])
    (hd1 : ∀ c ∈ ds1, c.isDigit = true) (hd3 : ∀ c ∈ ds3, c.isDigit = true) :
    hunkHeaderParseAt
        (lit "@@ -" ++ (ds1 ++ (' ' :: ('+' :: (ds3 ++ (' ' :: ('@' :: ('@' :: ctx)))))))) =
      some (decimalValue ds3, 1) := by
  unfold hunkHeaderParseAt
  rw [if_pos (by rw [List.isPrefixOf_iff_prefix]; exact List.prefix_append _ _)]
  dsimp only
  rw [show (lit "@@ -" ++ (ds1 ++ (' ' :: ('+' :: (ds3 ++
        (' ' :: ('@' :: ('@' :: ctx)))))))).drop 4 =
      ds1 ++ (' ' :: ('+' :: (ds3 ++ (' ' :: ('@' :: ('@' :: ctx))))))
    from List.drop_left (lit "@@ -") _,
    takeWhile_append_cons ds1 ' ' _ hd1 (by decide),
    if_neg (by simp [h1]),
    List.drop_left,
    optCommaDigits_space,
    if_pos (by rw [List.isPrefixOf_iff_prefix]; exact ⟨_, rfl⟩),
    show (' ' :: ('+' :: (ds3 ++ (' ' :: ('@' :: ('@' :: ctx)))))).drop 2 =
        ds3 ++ (' ' :: ('@' :: ('@' :: ctx))) from rfl,
    takeWhile_append_cons ds3 ' ' _ hd3 (by decide),
    if_neg (by simp [h3]),
    List.drop_left,
    optCommaCapture_space]

lemma lit_append_ne_nil (s : String) (X : Str) (hs : lit s ≠ []) : lit s ++ X ≠ [] := by
  intro h
  exact hs (List.append_eq_nil.mp h).1

lemma hunkSearch_cons_of_parse (s : Str) (r : Nat × Nat) (hs : s ≠ [])
    (h : hunkHeaderParseAt s = some r) : hunkSearch s = some r := by
  rcases s with _ | ⟨c, rest⟩
  · exact absurd rfl hs
  · rw [hunkSearch, h]

lemma parseDiffHunk_of_parse0 (s : Str) (a b : Nat) (hs : s ≠ [])
    (h : hunkHeaderParseAt s = some (a, b)) : parseDiffHunk s = some ⟨a, b⟩ := by
  unfold parseDiffHunk
  rw [if_neg (by simp [hs]), hunkSearch_cons_of_parse s (a, b) hs h]

/-! The claim theorems. -/

/-- C3: for every rawDiff and filePath, extraction and render are total and
agree on the not-found outcome: whenever either argument is empty or no file
header matches (including wholly unparseable input), both `parseDiffForFile`
and `parseDiffWithColors` return `none`; conversely `parseDiffWithColors`
returns `none` only in those cases, so once a section matches, every input —
however malformed — yields a `RenderedDiff` rather than an error. -/
theorem parse_nomatch_returns_none :
    (∀ d p : Str, (d = [] ∨ p = [] ∨ firstMatch p d = none) →
      parseDiffForFile d p = none ∧ parseDiffWithColors d p = none) ∧
    (∀ d p : Str, parseDiffWithColors d p = none →
      d = [] ∨ p = [] ∨ firstMatch p d = none) :=
  ⟨fun d p h => ⟨parseDiffForFile_none d p h, (parseDiffWithColors_none_iff d p).mpr h⟩,
   fun d p h => (parseDiffWithColors_none_iff d p).mp h⟩

/-- C3 witness: the unparseable input "garbage input ###" matches no header
and both functions return `none` on it. -/
theorem parse_nomatch_returns_none_witness :
    firstMatch (lit "test.txt") (lit "garbage input ###") = none ∧
    parseDiffForFile (lit "garbage input ###") (lit "test.txt") = none ∧
    parseDiffWithColors (lit "garbage input ###") (lit "test.txt") = none :=
  ⟨by decide,
   (parse_nomatch_returns_none.1 (lit "garbage input ###") (lit "test.txt")
     (Or.inr (Or.inr (by decide)))).1,
   (parse_nomatch_returns_none.1 (lit "garbage input ###") (lit "test.txt")
     (Or.inr (Or.inr (by decide)))).2⟩

/-- C4: for every matched fragment containing the binary marker, render
returns exactly the fixed binary placeholder with zero annotations,
regardless of any hunk content; the deletion marker is checked only after
the binary marker, so binary takes priority, and a non-binary fragment with
the deletion marker yields exactly the fixed deletion placeholder. -/
theorem render_binary_deleted_placeholders (d p frag : Str) (hd : d ≠ [])
    (hp : p ≠ []) (hm : firstMatch p d = some frag) :
    (includes (lit "Binary files") frag = true →
      parseDiffWithColors d p = some ⟨lit "Binary file - no preview available", []⟩) ∧
    (includes (lit "Binary files") frag = false →
      includes (lit "deleted file mode") frag = true →
      parseDiffWithColors d p = some ⟨lit "File was deleted in this PR", []⟩) := by
  constructor
  · intro h1
    rw [parseDiffWithColors_eq_of_match d p frag hd hp hm, if_pos h1]
  · intro h1 h2
    rw [parseDiffWithColors_eq_of_match d p frag hd hp hm,
        if_neg (by simp [h1]), if_pos h2]

/-- C4 witness: a fragment carrying both markers renders the binary
placeholder (binary wins), and a deleted-file fragment with hunks renders
the deletion placeholder. -/
theorem render_binary_deleted_placeholders_witness :
    parseDiffWithColors
        (lit "diff --git a/z b/z\ndeleted file mode 100644\nBinary files a/z and b/z differ")
        (lit "z") = some ⟨lit "Binary file - no preview available", []⟩ ∧
    parseDiffWithColors
        (lit "diff --git a/w b/w\ndeleted file mode 100644\nindex 1..0\n--- a/w\n+++ /dev/null\n@@ -1 +0,0 @@\n-gone")
        (lit "w") = some ⟨lit "File was deleted in this PR", []⟩ :=
  ⟨(render_binary_deleted_placeholders
      (lit "diff --git a/z b/z\ndeleted file mode 100644\nBinary files a/z and b/z differ")
      (lit "z")
      (lit "diff --git a/z b/z\ndeleted file mode 100644\nBinary files a/z and b/z differ")
      (by decide) (by decide) (by decide)).1 (by decide),
   (render_binary_deleted_placeholders
      (lit "diff --git a/w b/w\ndeleted file mode 100644\nindex 1..0\n--- a/w\n+++ /dev/null\n@@ -1 +0,0 @@\n-gone")
      (lit "w")
      (lit "diff --git a/w b/w\ndeleted file mode 100644\nindex 1..0\n--- a/w\n+++ /dev/null\n@@ -1 +0,0 @@\n-gone")
      (by decide) (by decide) (by decide)).2 (by decide) (by decide)⟩

/-- C7: a matched file section that is neither binary nor deleted and whose
processing yields an empty display buffer renders the
"No changes to display" placeholder with zero annotations; and render never
produces an empty buffer: every `RenderedDiff` it returns has nonempty
content. -/
theorem render_empty_buffer_placeholder :
    (∀ d p frag : Str, d ≠ [] → p ≠ [] → firstMatch p d = some frag →
      includes (lit "Binary files") frag = false →
      includes (lit "deleted file mode") frag = false →
      bannerLines frag = [] → bodyLines false (splitOnNl frag) = [] →
      parseDiffWithColors d p = some ⟨lit "No changes to display", []⟩) ∧
    (∀ (d p : Str) (r : RenderedDiff), parseDiffWithColors d p = some r →
      r.content ≠ []) :=
  ⟨fun d p frag hd hp hm hbin hdel hbe hble =>
    parseDiffWithColors_noChanges d p frag hd hp hm hbin hdel hbe hble,
   fun d p r h => parseDiffWithColors_content_ne_nil d p r h⟩

/-- C7 witness: a header-only file section renders the empty-buffer
placeholder. -/
theorem render_empty_buffer_placeholder_witness :
    bannerLines (lit "diff --git a/empty.txt b/empty.txt\nindex 1..2 100644\n--- a/empty.txt\n+++ b/empty.txt") = [] ∧
    parseDiffWithColors
        (lit "diff --git a/empty.txt b/empty.txt\nindex 1..2 100644\n--- a/empty.txt\n+++ b/empty.txt")
        (lit "empty.txt") = some ⟨lit "No changes to display", []⟩ :=
  ⟨by decide,
   render_empty_buffer_placeholder.1
     (lit "diff --git a/empty.txt b/empty.txt\nindex 1..2 100644\n--- a/empty.txt\n+++ b/empty.txt")
     (lit "empty.txt")
     (lit "diff --git a/empty.txt b/empty.txt\nindex 1..2 100644\n--- a/empty.txt\n+++ b/empty.txt")
     (by decide) (by decide) (by decide) (by decide) (by decide) (by decide) (by decide)⟩

/-- C8: extraction and render are deterministic pure functions — identical
argument pairs produce identical results.  In this embedding both are plain
functions of their arguments, so referential transparency is by
construction. -/
theorem parse_deterministic (d1 d2 p1 p2 : Str) (hd : d1 = d2) (hp : p1 = p2) :
    parseDiffForFile d1 p1 = parseDiffForFile d2 p2 ∧
    parseDiffWithColors d1 p1 = parseDiffWithColors d2 p2 := by
  subst hd
  subst hp
  exact ⟨rfl, rfl⟩

/-- C8 witness: determinism at a concrete input. -/
theorem parse_deterministic_witness :
    parseDiffForFile (lit "diff --git a/t b/t\n@@ -1 +1 @@\n+x") (lit "t") =
      parseDiffForFile (lit "diff --git a/t b/t\n@@ -1 +1 @@\n+x") (lit "t") ∧
    parseDiffWithColors (lit "diff --git a/t b/t\n@@ -1 +1 @@\n+x") (lit "t") =
      parseDiffWithColors (lit "diff --git a/t b/t\n@@ -1 +1 @@\n+x") (lit "t") :=
  parse_deterministic _ _ _ _ rfl rfl

/-- C9: if either the raw diff or the requested file path is the empty
string, both extraction and render return `none` (the JavaScript guard
`if (!fullDiff || !filePath) return null`). -/
theorem parse_empty_args_none (d p : Str) (h : d = [] ∨ p = []) :
    parseDiffForFile d p = none ∧ parseDiffWithColors d p = none :=
  ⟨parseDiffForFile_none d p (h.imp id Or.inl),
   (parseDiffWithColors_none_iff d p).mpr (h.imp id Or.inl)⟩

/-- C9 witness: the empty raw diff and the empty path both yield `none`. -/
theorem parse_empty_args_none_witness :
    (parseDiffForFile [] (lit "test.txt") = none ∧
      parseDiffWithColors [] (lit "test.txt") = none) ∧
    (parseDiffForFile (lit "diff --git a/t b/t\n@@ -1 +1 @@\n+x") [] = none ∧
      parseDiffWithColors (lit "diff --git a/t b/t\n@@ -1 +1 @@\n+x") [] = none) :=
  ⟨parse_empty_args_none [] (lit "test.txt") (Or.inl rfl),
   parse_empty_args_none (lit "diff --git a/t b/t\n@@ -1 +1 @@\n+x") [] (Or.inr rfl)⟩

/-- C10: binary and deleted classification is decided by substring
containment over the whole extracted fragment, not by header-line position:
a fragment with well-formed hunks whose only occurrence of
"deleted file mode" (resp. "Binary files") sits inside a hunk body line is
still rendered as the deletion (resp. binary) placeholder with zero
decorations instead of its hunks. -/
theorem render_marker_in_hunk_body :
    parseDiffWithColors
        (lit "diff --git a/x b/x\nindex 1..2 100644\n--- a/x\n+++ b/x\n@@ -1,1 +1,2 @@\n context\n+has deleted file mode marker")
        (lit "x") = some ⟨lit "File was deleted in this PR", []⟩ ∧
    parseDiffWithColors
        (lit "diff --git a/y b/y\nindex 1..2 100644\n--- a/y\n+++ b/y\n@@ -1,1 +1,2 @@\n context\n+see Binary files note")
        (lit "y") = some ⟨lit "Binary file - no preview available", []⟩ := by
  constructor
  · decide
  · decide

/-- C2: on every matched, non-binary, non-deleted file section whose display
buffer is nonempty, render produces the banner lines followed by the body
lines, and its decorations satisfy the annotation invariants: the number of
added, deleted and hunk-header annotations equals the number of display
lines originating from a `+`, `-` and `@@` source line respectively; every
annotation covers exactly one line and lies strictly after the banner lines
(so banner and context lines carry none); annotation ranges are pairwise
disjoint; and the display line at offset `i` of the body carries exactly the
one annotation its classification prescribes, at line number
bannerLength + i + 1. -/
theorem render_decorations_invariant (d p frag : Str) (hd : d ≠ []) (hp : p ≠ [])
    (hm : firstMatch p d = some frag)
    (hbin : includes (lit "Binary files") frag = false)
    (hdel : includes (lit "deleted file mode") frag = false)
    (hne : bannerLines frag ++ bodyLines false (splitOnNl frag) ≠ []) :
    parseDiffWithColors d p =
      some ⟨joinNl (bannerLines frag ++ bodyLines false (splitOnNl frag)),
            bodyDecos false (bannerLines frag).length (splitOnNl frag)⟩ ∧
    splitOnNl (joinNl (bannerLines frag ++ bodyLines false (splitOnNl frag))) =
      bannerLines frag ++ bodyLines false (splitOnNl frag) ∧
    (bodyDecos false (bannerLines frag).length (splitOnNl frag)).countP
        (fun dd => dd.options.className == some "diff-line-added") =
      (displayKinds false (splitOnNl frag)).countP (fun k => k == LineKind.added) ∧
    (bodyDecos false (bannerLines frag).length (splitOnNl frag)).countP
        (fun dd => dd.options.className == some "diff-line-deleted") =
      (displayKinds false (splitOnNl frag)).countP (fun k => k == LineKind.deleted) ∧
    (bodyDecos false (bannerLines frag).length (splitOnNl frag)).countP
        (fun dd => dd.options.className == some "diff-hunk-header") =
      (displayKinds false (splitOnNl frag)).countP (fun k => k == LineKind.hunkHeader) ∧
    (∀ dd ∈ bodyDecos false (bannerLines frag).length (splitOnNl frag),
      dd.range.startLineNumber = dd.range.endLineNumber ∧
      dd.options.isWholeLine = true ∧
      (bannerLines frag).length < dd.range.startLineNumber) ∧
    (bodyDecos false (bannerLines frag).length (splitOnNl frag)).Pairwise
      (fun d1 d2 => d1.range.endLineNumber < d2.range.startLineNumber) ∧
    (∀ i, i < (displayKinds false (splitOnNl frag)).length →
      (bodyDecos false (bannerLines frag).length (splitOnNl frag)).filter
          (fun dd => dd.range.startLineNumber == (bannerLines frag).length + i + 1) =
        decosFor ((displayKinds false (splitOnNl frag)).getD i .skipped)
          ((bannerLines frag).length + i + 1)) ∧
    (bodyLines false (splitOnNl frag)).length =
      (displayKinds false (splitOnNl frag)).length := by
  refine ⟨parseDiffWithColors_main d p frag hd hp hm hbin hdel hne, ?_,
    bodyDecos_count_added (splitOnNl frag) false (bannerLines frag).length,
    bodyDecos_count_deleted (splitOnNl frag) false (bannerLines frag).length,
    bodyDecos_count_hunk (splitOnNl frag) false (bannerLines frag).length,
    fun dd hdd => ⟨(bodyDecos_one_line (splitOnNl frag) false (bannerLines frag).length dd hdd).1,
      (bodyDecos_one_line (splitOnNl frag) false (bannerLines frag).length dd hdd).2,
      bodyDecos_start_gt (splitOnNl frag) false (bannerLines frag).length dd hdd⟩,
    bodyDecos_disjoint (splitOnNl frag) false (bannerLines frag).length,
    fun i hi => bodyDecos_filter_at (splitOnNl frag) false (bannerLines frag).length i hi,
    bodyLines_length (splitOnNl frag) false⟩
  refine splitOnNl_joinNl _ ?_ hne
  intro l hl
  rcases List.mem_append.mp hl with h | h
  · exact bannerLines_no_nl frag l h
  · exact mem_bodyLines_no_nl (splitOnNl frag) false l
      (fun x hx => mem_splitOnNl_no_nl frag x hx) h

/-- C2 witness: the invariant theorem applied to a concrete three-line diff
with one context, one deleted and one added line. -/
theorem render_decorations_invariant_witness :
    firstMatch (lit "test.txt")
        (lit "diff --git a/test.txt b/test.txt\nindex 1..2 100644\n--- a/test.txt\n+++ b/test.txt\n@@ -1,2 +1,3 @@\n existing line\n-removed line\n+added line") =
      some (lit "diff --git a/test.txt b/test.txt\nindex 1..2 100644\n--- a/test.txt\n+++ b/test.txt\n@@ -1,2 +1,3 @@\n existing line\n-removed line\n+added line") ∧
    parseDiffWithColors
        (lit "diff --git a/test.txt b/test.txt\nindex 1..2 100644\n--- a/test.txt\n+++ b/test.txt\n@@ -1,2 +1,3 @@\n existing line\n-removed line\n+added line")
        (lit "test.txt") =
      some ⟨joinNl (bannerLines (lit "diff --git a/test.txt b/test.txt\nindex 1..2 100644\n--- a/test.txt\n+++ b/test.txt\n@@ -1,2 +1,3 @@\n existing line\n-removed line\n+added line") ++
              bodyLines false (splitOnNl (lit "diff --git a/test.txt b/test.txt\nindex 1..2 100644\n--- a/test.txt\n+++ b/test.txt\n@@ -1,2 +1,3 @@\n existing line\n-removed line\n+added line"))),
            bodyDecos false
              (bannerLines (lit "diff --git a/test.txt b/test.txt\nindex 1..2 100644\n--- a/test.txt\n+++ b/test.txt\n@@ -1,2 +1,3 @@\n existing line\n-removed line\n+added line")).length
              (splitOnNl (lit "diff --git a/test.txt b/test.txt\nindex 1..2 100644\n--- a/test.txt\n+++ b/test.txt\n@@ -1,2 +1,3 @@\n existing line\n-removed line\n+added line"))⟩ ∧
    (bodyDecos false
        (bannerLines (lit "diff --git a/test.txt b/test.txt\nindex 1..2 100644\n--- a/test.txt\n+++ b/test.txt\n@@ -1,2 +1,3 @@\n existing line\n-removed line\n+added line")).length
        (splitOnNl (lit "diff --git a/test.txt b/test.txt\nindex 1..2 100644\n--- a/test.txt\n+++ b/test.txt\n@@ -1,2 +1,3 @@\n existing line\n-removed line\n+added line"))).countP
        (fun dd => dd.options.className == some "diff-line-added") =
      (displayKinds false (splitOnNl (lit "diff --git a/test.txt b/test.txt\nindex 1..2 100644\n--- a/test.txt\n+++ b/test.txt\n@@ -1,2 +1,3 @@\n existing line\n-removed line\n+added line"))).countP
        (fun k => k == LineKind.added) :=
  ⟨by decide,
   (render_decorations_invariant
      (lit "diff --git a/test.txt b/test.txt\nindex 1..2 100644\n--- a/test.txt\n+++ b/test.txt\n@@ -1,2 +1,3 @@\n existing line\n-removed line\n+added line")
      (lit "test.txt")
      (lit "diff --git a/test.txt b/test.txt\nindex 1..2 100644\n--- a/test.txt\n+++ b/test.txt\n@@ -1,2 +1,3 @@\n existing line\n-removed line\n+added line")
      (by decide) (by decide) (by decide) (by decide) (by decide) (by decide)).1,
   (render_decorations_invariant
      (lit "diff --git a/test.txt b/test.txt\nindex 1..2 100644\n--- a/test.txt\n+++ b/test.txt\n@@ -1,2 +1,3 @@\n existing line\n-removed line\n+added line")
      (lit "test.txt")
      (lit "diff --git a/test.txt b/test.txt\nindex 1..2 100644\n--- a/test.txt\n+++ b/test.txt\n@@ -1,2 +1,3 @@\n existing line\n-removed line\n+added line")
      (by decide) (by decide) (by decide) (by decide) (by decide) (by decide)).2.2.1⟩

/-- C6: on a matched, non-binary, non-deleted section carrying rename
markers, render prepends the banner line naming both paths and a blank
separator before any hunk content, and every added display line keeps
exactly one addition annotation at its line number offset by the banner's
two lines; on a section carrying the new-file marker (and not renamed),
render prepends the "// New file" banner and blank separator, every added
display line keeps exactly one addition annotation (never a deletion one),
and deletion annotations match the deleted display lines exactly (none when
the fragment has no deletion lines). -/
theorem render_rename_newfile_banner (d p frag : Str) (hd : d ≠ []) (hp : p ≠ [])
    (hm : firstMatch p d = some frag)
    (hbin : includes (lit "Binary files") frag = false)
    (hdel : includes (lit "deleted file mode") frag = false) :
    (∀ o nw : Str, renameSearch frag = some (o, nw) →
      parseDiffWithColors d p =
        some ⟨joinNl (renameBanner o nw :: [] :: bodyLines false (splitOnNl frag)),
              bodyDecos false 2 (splitOnNl frag)⟩ ∧
      splitOnNl (joinNl (renameBanner o nw :: [] :: bodyLines false (splitOnNl frag))) =
        renameBanner o nw :: [] :: bodyLines false (splitOnNl frag) ∧
      (∀ i, i < (displayKinds false (splitOnNl frag)).length →
        (displayKinds false (splitOnNl frag)).getD i .skipped = LineKind.added →
        (bodyDecos false 2 (splitOnNl frag)).filter
            (fun dd => dd.range.startLineNumber == 2 + i + 1) =
          [addedDeco (2 + i + 1)])) ∧
    (renameSearch frag = none → includes (lit "new file mode") frag = true →
      parseDiffWithColors d p =
        some ⟨joinNl (lit "// New file" :: [] :: bodyLines false (splitOnNl frag)),
              bodyDecos false 2 (splitOnNl frag)⟩ ∧
      (∀ i, i < (displayKinds false (splitOnNl frag)).length →
        (displayKinds false (splitOnNl frag)).getD i .skipped = LineKind.added →
        (bodyDecos false 2 (splitOnNl frag)).filter
            (fun dd => dd.range.startLineNumber == 2 + i + 1) =
          [addedDeco (2 + i + 1)]) ∧
      (bodyDecos false 2 (splitOnNl frag)).countP
          (fun dd => dd.options.className == some "diff-line-deleted") =
        (displayKinds false (splitOnNl frag)).countP (fun k => k == LineKind.deleted)) := by
  constructor
  · intro o nw hr
    have hb : bannerLines frag = [renameBanner o nw, []] := by
      unfold bannerLines
      rw [hr]
    have hne : bannerLines frag ++ bodyLines false (splitOnNl frag) ≠ [] := by
      rw [hb]
      simp
    have hmain := parseDiffWithColors_main d p frag hd hp hm hbin hdel hne
    rw [hb] at hmain
    refine ⟨hmain, ?_, ?_⟩
    · refine splitOnNl_joinNl _ ?_ (by simp)
      intro l hl
      rcases List.mem_cons.mp hl with h | h
      · subst h
        have := renameSearch_no_nl frag o nw hr
        exact renameBanner_no_nl o nw this.1 this.2
      rcases List.mem_cons.mp h with h' | h'
      · simp [h']
      · exact mem_bodyLines_no_nl (splitOnNl frag) false l
          (fun x hx => mem_splitOnNl_no_nl frag x hx) h'
    · intro i hi hk
      have := bodyDecos_filter_at (splitOnNl frag) false 2 i hi
      rw [hk] at this
      exact this
  · intro hr hn
    have hb : bannerLines frag = [lit "// New file", []] := by
      unfold bannerLines
      rw [hr]
      dsimp only
      rw [if_pos hn]
    have hne : bannerLines frag ++ bodyLines false (splitOnNl frag) ≠ [] := by
      rw [hb]
      simp
    have hmain := parseDiffWithColors_main d p frag hd hp hm hbin hdel hne
    rw [hb] at hmain
    refine ⟨hmain, ?_, bodyDecos_count_deleted (splitOnNl frag) false 2⟩
    intro i hi hk
    have := bodyDecos_filter_at (splitOnNl frag) false 2 i hi
    rw [hk] at this
    exact this

set_option maxRecDepth 16384 in
/-- C6 witness: the rename and new-file fixtures, with the banner prepended
and the offset annotation equations instantiated. -/
theorem render_rename_newfile_banner_witness :
    renameSearch
        (lit "diff --git a/old-name.txt b/new-name.txt\nrename from old-name.txt\nrename to new-name.txt\n--- a/old-name.txt\n+++ b/new-name.txt\n@@ -1,1 +1,2 @@\n content\n+more") =
      some (lit "old-name.txt", lit "new-name.txt") ∧
    parseDiffWithColors
        (lit "diff --git a/old-name.txt b/new-name.txt\nrename from old-name.txt\nrename to new-name.txt\n--- a/old-name.txt\n+++ b/new-name.txt\n@@ -1,1 +1,2 @@\n content\n+more")
        (lit "new-name.txt") =
      some ⟨joinNl (renameBanner (lit "old-name.txt") (lit "new-name.txt") :: [] ::
              bodyLines false (splitOnNl (lit "diff --git a/old-name.txt b/new-name.txt\nrename from old-name.txt\nrename to new-name.txt\n--- a/old-name.txt\n+++ b/new-name.txt\n@@ -1,1 +1,2 @@\n content\n+more"))),
            bodyDecos false 2 (splitOnNl (lit "diff --git a/old-name.txt b/new-name.txt\nrename from old-name.txt\nrename to new-name.txt\n--- a/old-name.txt\n+++ b/new-name.txt\n@@ -1,1 +1,2 @@\n content\n+more"))⟩ ∧
    parseDiffWithColors
        (lit "diff --git a/new-file.txt b/new-file.txt\nnew file mode 100644\nindex 0..1\n--- /dev/null\n+++ b/new-file.txt\n@@ -0,0 +1,3 @@\n+line 1\n+line 2\n+line 3")
        (lit "new-file.txt") =
      some ⟨joinNl (lit "// New file" :: [] ::
              bodyLines false (splitOnNl (lit "diff --git a/new-file.txt b/new-file.txt\nnew file mode 100644\nindex 0..1\n--- /dev/null\n+++ b/new-file.txt\n@@ -0,0 +1,3 @@\n+line 1\n+line 2\n+line 3"))),
            bodyDecos false 2 (splitOnNl (lit "diff --git a/new-file.txt b/new-file.txt\nnew file mode 100644\nindex 0..1\n--- /dev/null\n+++ b/new-file.txt\n@@ -0,0 +1,3 @@\n+line 1\n+line 2\n+line 3"))⟩ :=
  ⟨by decide,
   ((render_rename_newfile_banner
      (lit "diff --git a/old-name.txt b/new-name.txt\nrename from old-name.txt\nrename to new-name.txt\n--- a/old-name.txt\n+++ b/new-name.txt\n@@ -1,1 +1,2 @@\n content\n+more")
      (lit "new-name.txt")
      (lit "diff --git a/old-name.txt b/new-name.txt\nrename from old-name.txt\nrename to new-name.txt\n--- a/old-name.txt\n+++ b/new-name.txt\n@@ -1,1 +1,2 @@\n content\n+more")
      (by decide) (by decide) (by decide) (by decide) (by decide)).1
      (lit "old-name.txt") (lit "new-name.txt") (by decide)).1,
   ((render_rename_newfile_banner
      (lit "diff --git a/new-file.txt b/new-file.txt\nnew file mode 100644\nindex 0..1\n--- /dev/null\n+++ b/new-file.txt\n@@ -0,0 +1,3 @@\n+line 1\n+line 2\n+line 3")
      (lit "new-file.txt")
      (lit "diff --git a/new-file.txt b/new-file.txt\nnew file mode 100644\nindex 0..1\n--- /dev/null\n+++ b/new-file.txt\n@@ -0,0 +1,3 @@\n+line 1\n+line 2\n+line 3")
      (by decide) (by decide) (by decide) (by decide) (by decide)).2
      (by decide) (by decide)).1⟩

/-- C1 counterexample: the claim asserts that a requested path which is a
strict prefix of another file's path is never matched — in particular that
requesting `a.ts` against a diff containing only `a.ts.bak` yields
`NotFound`.  On the code this is false: the section pattern places the lazy
`.*?` immediately after the literal path, with no boundary anchor, so the
`a.ts.bak` section matches and both extraction and render return its
content. -/
theorem extract_prefix_path_counterexample :
    parseDiffForFile
        (lit "diff --git a/a.ts.bak b/a.ts.bak\nindex 1..2 100644\n--- a/a.ts.bak\n+++ b/a.ts.bak\n@@ -1 +1 @@\n+x")
        (lit "a.ts") = some ([], lit "x") ∧
    parseDiffWithColors
        (lit "diff --git a/a.ts.bak b/a.ts.bak\nindex 1..2 100644\n--- a/a.ts.bak\n+++ b/a.ts.bak\n@@ -1 +1 @@\n+x")
        (lit "a.ts") =
      some ⟨lit "@@ -1 +1 @@\nx", [hunkHeaderDeco 1, addedDeco 2]⟩ := by
  constructor
  · decide
  · decide

/-- C1 amended: extraction selects a file section whenever the requested
filePath is a literal *prefix* of the header's new-path token — exact
equality is not required.  Whenever the raw diff contains
`diff --git a/<run> b/<filePath><anything>` with `<run>` a nonempty
whitespace-free token, the section pattern matches and render succeeds
(returns some result), so requesting `a.ts` against a diff containing only
`a.ts.bak` is matched to that file. -/
theorem extract_matches_on_path_prefix (d p pre run rest : Str)
    (hrun : run ≠ []) (hws : ∀ c ∈ run, jsWhitespace c = false) (hp : p ≠ [])
    (hd : d = pre ++ (lit "diff --git a/" ++ (run ++ (lit " b/" ++ (p ++ rest))))) :
    firstMatch p d ≠ none ∧ parseDiffWithColors d p ≠ none := by
  have hmatch : matchFileHeaderAt p
      (lit "diff --git a/" ++ (run ++ (lit " b/" ++ (p ++ rest)))) ≠ none :=
    matchFileHeaderAt_construct p run rest hrun hws
  have hfm : firstMatch p d ≠ none := by
    rw [hd]
    exact firstMatch_ne_none_of_suffix pre _ p hmatch
  refine ⟨hfm, ?_⟩
  intro hnone
  rcases (parseDiffWithColors_none_iff d p).mp hnone with h | h | h
  · rw [h] at hd
    rcases List.append_eq_nil.mp hd.symm with ⟨_, h2⟩
    exact lit_append_ne_nil "diff --git a/" _ (by decide) h2
  · exact hp h
  · exact hfm h

/-- C1 amended witness: requesting `a.ts` against a diff containing only
`a.ts.bak` matches that section and render returns a result. -/
theorem extract_matches_on_path_prefix_witness :
    firstMatch (lit "a.ts")
        (lit "diff --git a/a.ts.bak b/a.ts.bak\nindex 1..2 100644\n--- a/a.ts.bak\n+++ b/a.ts.bak\n@@ -1 +1 @@\n+x") ≠
      none ∧
    parseDiffWithColors
        (lit "diff --git a/a.ts.bak b/a.ts.bak\nindex 1..2 100644\n--- a/a.ts.bak\n+++ b/a.ts.bak\n@@ -1 +1 @@\n+x")
        (lit "a.ts") ≠ none :=
  extract_matches_on_path_prefix
    (lit "diff --git a/a.ts.bak b/a.ts.bak\nindex 1..2 100644\n--- a/a.ts.bak\n+++ b/a.ts.bak\n@@ -1 +1 @@\n+x")
    (lit "a.ts") [] (lit "a.ts.bak")
    (lit ".bak\nindex 1..2 100644\n--- a/a.ts.bak\n+++ b/a.ts.bak\n@@ -1 +1 @@\n+x")
    (by decide) (by decide) (by decide) (by decide)

/-- C5: the hunk-range lookup returns the new start and new count of the
first substring matching the hunk-header grammar, parsed from the digit
runs; the count defaults to 1 when omitted; arbitrary trailing text after
the closing `@@` is tolerated; the leftmost match wins; and a string with no
matching substring (including the empty string) yields `none`.  The two
concrete cases of the spec are included. -/
theorem parseDiffHunk_grammar :
    (∀ ds1 ds2 ds3 ds4 ctx : Str, ds1 ≠ [] → ds2 ≠ [] → ds3 ≠ [] → ds4 ≠ [] →
      (∀ c ∈ ds1, c.isDigit = true) → (∀ c ∈ ds2, c.isDigit = true) →
      (∀ c ∈ ds3, c.isDigit = true) → (∀ c ∈ ds4, c.isDigit = true) →
      parseDiffHunk (lit "@@ -" ++ (ds1 ++ (',' :: (ds2 ++ (lit " +" ++ (ds3 ++
          (',' :: (ds4 ++ (lit " @@" ++ ctx))))))))) =
        some ⟨decimalValue ds3, decimalValue ds4⟩) ∧
    (∀ ds1 ds3 ctx : Str, ds1 ≠ [] → ds3 ≠ [] →
      (∀ c ∈ ds1, c.isDigit = true) → (∀ c ∈ ds3, c.isDigit = true) →
      parseDiffHunk (lit "@@ -" ++ (ds1 ++ (lit " +" ++ (ds3 ++ (lit " @@" ++ ctx))))) =
        some ⟨decimalValue ds3, 1⟩) ∧
    parseDiffHunk (lit "@@ -40,7 +40,8 @@") = some ⟨40, 8⟩ ∧
    parseDiffHunk (lit "@@ -1 +1 @@") = some ⟨1, 1⟩ ∧
    parseDiffHunk (lit "@@ -40,7 +40,8 @@ module header text") = some ⟨40, 8⟩ ∧
    parseDiffHunk (lit "xx @@ -1,2 +3,4 @@ tail @@ -9 +9 @@") = some ⟨3, 4⟩ ∧
    parseDiffHunk (lit "not a hunk header") = none ∧
    parseDiffHunk [] = none := by
  refine ⟨?_, ?_, by decide, by decide, by decide, by decide, by decide, by decide⟩
  · intro ds1 ds2 ds3 ds4 ctx h1 h2 h3 h4 hd1 hd2 hd3 hd4
    exact parseDiffHunk_of_parse0 _ (decimalValue ds3) (decimalValue ds4)
      (lit_append_ne_nil "@@ -" _ (by decide))
      (hunkHeaderParseAt_full ds1 ds2 ds3 ds4 ctx h1 h2 h3 h4 hd1 hd2 hd3 hd4)
  · intro ds1 ds3 ctx h1 h3 hd1 hd3
    exact parseDiffHunk_of_parse0 _ (decimalValue ds3) 1
      (lit_append_ne_nil "@@ -" _ (by decide))
      (hunkHeaderParseAt_defaults ds1 ds3 ctx h1 h3 hd1 hd3)

/-- C5 witness: the general grammar statement instantiated at the digit
runs of `@@ -40,7 +40,8 @@`. -/
theorem parseDiffHunk_grammar_witness :
    lit "40" ≠ [] ∧ (∀ c ∈ lit "40", c.isDigit = true) ∧
    parseDiffHunk (lit "@@ -" ++ (lit "40" ++ (',' :: (lit "7" ++ (lit " +" ++
        (lit "40" ++ (',' :: (lit "8" ++ (lit " @@" ++ lit " trailing"))))))))) =
      some ⟨decimalValue (lit "40"), decimalValue (lit "8")⟩ :=
  ⟨by decide, by decide,
   parseDiffHunk_grammar.1 (lit "40") (lit "7") (lit "40") (lit "8") (lit " trailing")
     (by decide) (by decide) (by decide) (by decide)
     (by decide) (by decide) (by decide) (by decide)⟩

end Rpm
